import Mathlib

/-!
Verification of `scripts/batch_armorfx.py` (batch armor/helmet FX and loudness
normalisation for `.ogg` files).

The Python source is shallowly embedded:

* Python `float` parameters are modelled as `ℚ`, Python `int` as `ℤ`/`ℕ`.
* Python strings are Lean `String`s; the string primitives the script uses
  (`str.split(",")`, `",".join`, `str.startswith`, `str.endswith`,
  `str.lower`) are given direct executable models (`pySplit`, `pyJoin`,
  `pyStartsWith`, `pyEndsWith`, `pyLower`) defined over the character list of
  the string, matching Python's semantics on the ASCII data the script
  handles.
* The numeric rendering done by Python f-strings is modelled by a rational
  formatter `fmtRat` / `fmtSigned` (digits, sign, `/`); no claim below
  depends on the exact digit strings, only on the facts that rendered
  numbers contain no comma and that rendering is deterministic.
* External engine invocations (`subprocess.run` inside `_run`) are modelled
  by executor functions supplied as parameters: an executor maps the varying
  part of the command to the exit status (and, for the ffmpeg render, to the
  content the invocation leaves in the temporary output file).  A filesystem
  fragment (`RenderFS`) tracks the destination file and the temporary
  sibling file of one render.
-/

/-! ### Character and string utilities (models of Python string primitives) -/

/-- Decimal digit character for a value in `0..9` (anything above 9 is
clamped to `'9'`; `natChars` only ever passes values below 10). -/
def digitChar (n : Nat) : Char :=
  if n = 0 then '0' else if n = 1 then '1' else if n = 2 then '2' else if n = 3 then '3'
  else if n = 4 then '4' else if n = 5 then '5' else if n = 6 then '6' else if n = 7 then '7'
  else if n = 8 then '8' else '9'

theorem digitChar_ne_comma (n : Nat) : digitChar n ≠ ',' := by
  unfold digitChar
  repeat' split
  all_goals decide

/-- Decimal digit list of a natural number (most significant first). -/
def natChars (n : Nat) : List Char :=
  if _h : n < 10 then [digitChar n]
  else natChars (n / 10) ++ [digitChar (n % 10)]
  decreasing_by exact Nat.div_lt_self (by omega) (by omega)

theorem natChars_comma (n : Nat) : ',' ∉ natChars n := by
  induction n using Nat.strong_induction_on with
  | _ n ih =>
    rw [natChars]
    split
    · simp [Ne.symm (digitChar_ne_comma n)]
    · rename_i h
      simp only [List.mem_append, List.mem_singleton]
      rintro (h1 | h2)
      · exact ih (n / 10) (Nat.div_lt_self (by omega) (by omega)) h1
      · exact digitChar_ne_comma (n % 10) h2.symm

/-- Decimal rendering of an integer (with leading minus sign if negative). -/
def intChars (i : Int) : List Char :=
  if i < 0 then '-' :: natChars i.natAbs else natChars i.natAbs

theorem intChars_comma (i : Int) : ',' ∉ intChars i := by
  unfold intChars
  split
  · simp only [List.mem_cons]
    rintro (h | h)
    · exact absurd h (by decide)
    · exact natChars_comma _ h
  · exact natChars_comma _

/-- Rendering of a rational number: the integer numerator, followed by
`/denominator` when the denominator is not 1.  This models the decimal
rendering Python f-strings perform on floats; the claims below depend only
on the rendered text being comma-free. -/
def fmtRat (q : ℚ) : String :=
  ⟨intChars q.num ++ (if q.den = 1 then [] else '/' :: natChars q.den)⟩

theorem fmtRat_comma (q : ℚ) : ',' ∉ (fmtRat q).data := by
  unfold fmtRat
  simp only [List.mem_append]
  rintro (h | h)
  · exact intChars_comma _ h
  · revert h
    split
    · simp
    · simp only [List.mem_cons]
      rintro (h | h)
      · exact absurd h (by decide)
      · exact natChars_comma _ h

/-- Rendering with an explicit sign, modelling the Python format `{:+g}`
(a `+` is prepended for non-negative values; negative values already carry
their minus sign). -/
def fmtSigned (q : ℚ) : String :=
  (if 0 ≤ q then "+" else "") ++ fmtRat q

/-- Decimal rendering of an integer as a string, modelling Python `str(int)`. -/
def fmtInt (i : ℤ) : String := ⟨intChars i⟩

/-- Split a character list at every comma, modelling Python
`str.split(",")`: the empty list yields one empty field, and every comma
opens a new field. -/
def splitComma : List Char → List (List Char)
  | [] => [[]]
  | c :: rest =>
    match splitComma rest with
    | [] => [[c]]
    | h :: t => if c = ',' then [] :: h :: t else (c :: h) :: t

theorem splitComma_ne_nil (l : List Char) : splitComma l ≠ [] := by
  cases l with
  | nil => simp [splitComma]
  | cons c rest =>
    cases h : splitComma rest with
    | nil => simp [splitComma, h]
    | cons x xs =>
      simp only [splitComma, h]
      split <;> simp

/-- Join a list of fields with commas, modelling Python `",".join(...)`. -/
def joinComma : List (List Char) → List Char
  | [] => []
  | [x] => x
  | x :: y :: t => x ++ ',' :: joinComma (y :: t)

theorem splitComma_of_comma_free (l : List Char) (h : ',' ∉ l) :
    splitComma l = [l] := by
  induction l with
  | nil => rfl
  | cons c rest ih =>
    simp only [List.mem_cons, not_or] at h
    simp only [splitComma, ih h.2, if_neg (Ne.symm h.1)]

theorem splitComma_append (xs ys : List Char) (h : ',' ∉ xs) :
    splitComma (xs ++ ',' :: ys) =
      xs :: splitComma ys := by
  induction xs with
  | nil =>
    cases hs : splitComma ys with
    | nil => exact absurd hs (splitComma_ne_nil ys)
    | cons a b => simp [splitComma, hs]
  | cons c rest ih =>
    simp only [List.mem_cons, not_or] at h
    simp only [List.cons_append, splitComma, List.append_eq]
    rw [ih h.2]
    simp [if_neg (Ne.symm h.1)]

theorem splitComma_joinComma (l : List (List Char)) (hne : l ≠ [])
    (hfree : ∀ x ∈ l, ',' ∉ x) :
    splitComma (joinComma l) = l := by
  induction l with
  | nil => exact absurd rfl hne
  | cons x t ih =>
    cases t with
    | nil =>
      exact splitComma_of_comma_free x (hfree x (by simp))
    | cons y t2 =>
      have hx : ',' ∉ x := hfree x (by simp)
      simp only [joinComma]
      rw [splitComma_append x _ hx]
      congr 1
      exact ih (by simp) (fun z hz => hfree z (List.mem_cons_of_mem x hz))

/-! String-level wrappers. -/

theorem stringEq_of_data (a b : String) (h : a.data = b.data) : a = b := by
  cases a; cases b; exact congrArg String.mk h

theorem dataOfAppend (a b : String) : (a ++ b).data = a.data ++ b.data :=
  String.data_append a b

/-- Model of Python `s.split(",")`. -/
def pySplit (s : String) : List String := (splitComma s.data).map String.mk

/-- Model of Python `",".join(l)`. -/
def pyJoin (l : List String) : String := ⟨joinComma (l.map String.data)⟩

/-- Model of Python `s.startswith(p)`. -/
def pyStartsWith (s p : String) : Bool := p.data.isPrefixOf s.data

/-- Model of Python `s.endswith(p)` (used for the `*.ogg` glob). -/
def pyEndsWith (s p : String) : Bool := p.data.isSuffixOf s.data

/-- Model of Python `s.lower()` on the ASCII names the script handles. -/
def pyLower (s : String) : String := ⟨s.data.map Char.toLower⟩

theorem isPrefixOf_self_append (l r : List Char) : l.isPrefixOf (l ++ r) = true := by
  induction l with
  | nil => simp [List.isPrefixOf]
  | cons c cs ih => simp [List.isPrefixOf, ih]

theorem pyStartsWith_self_append (p r : String) :
    pyStartsWith (p ++ r) p = true := by
  unfold pyStartsWith
  rw [dataOfAppend]
  exact isPrefixOf_self_append _ _

theorem pyJoin_pair (a b : String) : pyJoin [a, b] = a ++ "," ++ b := by
  apply stringEq_of_data
  simp [pyJoin, joinComma, dataOfAppend]

theorem pyJoin_cons (a : String) (l : List String) (h : l ≠ []) :
    pyJoin (a :: l) = a ++ "," ++ pyJoin l := by
  apply stringEq_of_data
  cases l with
  | nil => exact absurd rfl h
  | cons b t => simp [pyJoin, joinComma, dataOfAppend]

theorem pySplit_pyJoin (l : List String) (hne : l ≠ [])
    (hfree : ∀ x ∈ l, ',' ∉ x.data) :
    pySplit (pyJoin l) = l := by
  unfold pySplit pyJoin
  rw [splitComma_joinComma (l.map String.data)
    (by simpa using hne)
    (by intro x hx
        rcases List.mem_map.mp hx with ⟨s, hs, rfl⟩
        exact hfree s hs)]
  rw [List.map_map]
  have : (String.mk ∘ String.data) = id := by
    funext s; cases s; rfl
  rw [this, List.map_id]

/-! ### Lexicographic order on strings (model of Python string comparison) -/

/-- Lexicographic less-or-equal on character lists, comparing code points,
modelling Python string comparison (`sorted` on path strings). -/
def strLeb : List Char → List Char → Bool
  | [], _ => true
  | _ :: _, [] => false
  | a :: as, b :: bs => if a.toNat = b.toNat then strLeb as bs else decide (a.toNat < b.toNat)

/-- Model of ordering on `pathlib.Path` values: compare the path strings. -/
def pyLe (a b : String) : Bool := strLeb a.data b.data

theorem strLeb_total (a : List Char) : ∀ b, strLeb a b || strLeb b a := by
  induction a with
  | nil => intro b; cases b <;> simp [strLeb]
  | cons x xs ih =>
    intro b
    cases b with
    | nil => simp [strLeb]
    | cons y ys =>
      simp only [strLeb]
      rcases Nat.lt_trichotomy x.toNat y.toNat with h | h | h
      · rw [if_neg (by omega), if_neg (by omega)]
        simp [h]
      · rw [if_pos h, if_pos h.symm]
        exact ih ys
      · rw [if_neg (by omega), if_neg (by omega)]
        simp [h]

theorem strLeb_trans (a : List Char) :
    ∀ b c, strLeb a b → strLeb b c → strLeb a c := by
  induction a with
  | nil => intro b c _ _; simp [strLeb]
  | cons x xs ih =>
    intro b c hab hbc
    cases b with
    | nil => simp [strLeb] at hab
    | cons y ys =>
      cases c with
      | nil => simp [strLeb] at hbc
      | cons z zs =>
        simp only [strLeb] at hab hbc ⊢
        by_cases hxy : x.toNat = y.toNat <;> by_cases hyz : y.toNat = z.toNat
        · rw [if_pos hxy] at hab
          rw [if_pos hyz] at hbc
          rw [if_pos (hxy.trans hyz)]
          exact ih ys zs hab hbc
        · rw [if_neg hyz] at hbc
          simp only [decide_eq_true_eq] at hbc
          rw [if_neg (by omega : ¬ x.toNat = z.toNat)]
          simp only [decide_eq_true_eq]
          omega
        · rw [if_neg hxy] at hab
          simp only [decide_eq_true_eq] at hab
          rw [if_neg (by omega : ¬ x.toNat = z.toNat)]
          simp only [decide_eq_true_eq]
          omega
        · rw [if_neg hxy] at hab
          rw [if_neg hyz] at hbc
          simp only [decide_eq_true_eq] at hab hbc
          rw [if_neg (by omega : ¬ x.toNat = z.toNat)]
          simp only [decide_eq_true_eq]
          omega

theorem pyLe_total (a b : String) : pyLe a b || pyLe b a := strLeb_total a.data b.data

theorem pyLe_trans (a b c : String) : pyLe a b → pyLe b c → pyLe a c :=
  strLeb_trans a.data b.data c.data

/-- Split a character list at every slash (same recursion as `splitComma`,
used to model `pathlib` name extraction). -/
def splitSlash : List Char → List (List Char)
  | [] => [[]]
  | c :: rest =>
    match splitSlash rest with
    | [] => [[c]]
    | h :: t => if c = '/' then [] :: h :: t else (c :: h) :: t

/-- Model of `pathlib.Path.name`: the last slash-separated component of the
path string. -/
def pathName (s : String) : String := ⟨(splitSlash s.data).getLastD []⟩

/-! ### More string-append lemmas used by the bridge proofs -/

theorem stringAppend_assoc (a b c : String) : a ++ b ++ c = a ++ (b ++ c) := by
  apply stringEq_of_data
  simp [dataOfAppend, List.append_assoc]

theorem stringEmpty_data : ("" : String).data = [] := rfl

theorem stringAppend_empty (a : String) : a ++ "" = a := by
  apply stringEq_of_data
  simp [dataOfAppend, stringEmpty_data]

theorem pyJoin_singleton (a : String) : pyJoin [a] = a := by
  cases a; rfl

theorem pyJoin_append (xs ys : List String) (hx : xs ≠ []) (hy : ys ≠ []) :
    pyJoin (xs ++ ys) = pyJoin xs ++ "," ++ pyJoin ys := by
  induction xs with
  | nil => exact absurd rfl hx
  | cons a t ih =>
    cases t with
    | nil =>
      simp only [List.singleton_append]
      rw [pyJoin_cons a ys hy, pyJoin_singleton]
    | cons b t2 =>
      rw [List.cons_append, pyJoin_cons a ((b :: t2) ++ ys) (by simp),
        ih (by simp), pyJoin_cons a (b :: t2) (by simp)]
      simp [stringAppend_assoc]

/-! ### Armor presets (`ArmorPreset`, `PRESETS`, lines 41-78 of the script) -/

/-- Model of the `ArmorPreset` dataclass with its field defaults
(`wet=0.30`, `wet_gain=1.00`, `hipass=240`, `lopass=7200`, `inner_lp=3600`,
`comb_hz=220.0`, `comb_decay=0.18`, `slap_ms=7.0`, `slap_decay=0.10`,
EQ bands `900/"1.2q"/3.0` and `2400/"1.0q"/2.2`, `headroom_db=1.0`,
`normalize=True`, `ogg_quality=5`). -/
structure ArmorPreset where
  wet : ℚ := 3/10
  wet_gain : ℚ := 1
  hipass : ℤ := 240
  lopass : ℤ := 7200
  inner_lp : ℤ := 3600
  comb_hz : ℚ := 220
  comb_decay : ℚ := 9/50
  slap_ms : ℚ := 7
  slap_decay : ℚ := 1/10
  eq1_f : ℤ := 900
  eq1_w : String := "1.2q"
  eq1_g : ℚ := 3
  eq2_f : ℤ := 2400
  eq2_w : String := "1.0q"
  eq2_g : ℚ := 11/5
  headroom_db : ℚ := 1
  normalize : Bool := true
  ogg_quality : ℤ := 5
deriving DecidableEq

/-- Model of the `PRESETS` dict (including the `marine` alias for `halo`);
each entry is `dataclasses.replace` of the default bundle. -/
def PRESETS (name : String) : Option ArmorPreset :=
  if name = "halo" ∨ name = "marine" then
    some { wet := 17/50, comb_hz := 235, comb_decay := 1/5, lopass := 7200,
           eq1_g := 7/2, eq2_g := 5/2 }
  else if name = "mild" then
    some { wet := 6/25, comb_decay := 7/50, eq1_g := 2, eq2_g := 3/2 }
  else if name = "heavy" then
    some { wet := 11/20, wet_gain := 11/10, hipass := 280, lopass := 5600,
           inner_lp := 3000, comb_hz := 250, comb_decay := 8/25,
           slap_decay := 7/50, eq1_g := 5, eq2_g := 7/2, headroom_db := 3/2,
           ogg_quality := 6 }
  else if name = "radio" then
    some { wet := 7/25, hipass := 500, lopass := 3200, inner_lp := 2200,
           comb_hz := 210, comb_decay := 3/25, slap_decay := 3/50,
           eq1_g := 3/2, eq2_g := 6/5 }
  else none

/-! ### Restore/sharpen chains (`RESTORE_CHAINS`, lines 84-94) -/

def restoreChainMild : String :=
  "highpass=f=70,afftdn=nr=5:nf=-45:nt=w,highshelf=f=3500:g=2,aexciter=amount=0.35:drive=2.0:freq=6000:ceil=16000:blend=0:level_in=1:level_out=1,deesser=i=0.12:m=0.35:f=0.60"

def restoreChainMedium : String :=
  "highpass=f=70,afftdn=nr=7:nf=-45:nt=w,highshelf=f=3200:g=3,aexciter=amount=0.50:drive=2.2:freq=5800:ceil=16000:blend=0:level_in=1:level_out=1,deesser=i=0.16:m=0.45:f=0.55"

def restoreChainStrong : String :=
  "highpass=f=80,afftdn=nr=9:nf=-44:nt=w,highshelf=f=3000:g=4,aexciter=amount=0.70:drive=2.5:freq=5500:ceil=16000:blend=0:level_in=1:level_out=1,deesser=i=0.20:m=0.55:f=0.50"

/-- Model of the `RESTORE_CHAINS` dict. -/
def RESTORE_CHAINS (strength : String) : Option String :=
  if strength = "mild" then some restoreChainMild
  else if strength = "medium" then some restoreChainMedium
  else if strength = "strong" then some restoreChainStrong
  else none

/-- Model of `RESTORE_CHAINS.get(strength, RESTORE_CHAINS["mild"])`
(line 221): lookup with the mild chain as default. -/
def restoreChainsGet (strength : String) : String :=
  (RESTORE_CHAINS strength).getD restoreChainMild

/-- The comma-separated stages of each restore chain (the chain constants,
pre-split; `pyJoin_restoreStages` proves this matches the string constants,
and unknown strengths fall back to the mild tier exactly as
`restoreChainsGet` does). -/
def restoreStages (strength : String) : List String :=
  if strength = "mild" then
    ["highpass=f=70", "afftdn=nr=5:nf=-45:nt=w", "highshelf=f=3500:g=2",
     "aexciter=amount=0.35:drive=2.0:freq=6000:ceil=16000:blend=0:level_in=1:level_out=1",
     "deesser=i=0.12:m=0.35:f=0.60"]
  else if strength = "medium" then
    ["highpass=f=70", "afftdn=nr=7:nf=-45:nt=w", "highshelf=f=3200:g=3",
     "aexciter=amount=0.50:drive=2.2:freq=5800:ceil=16000:blend=0:level_in=1:level_out=1",
     "deesser=i=0.16:m=0.45:f=0.55"]
  else if strength = "strong" then
    ["highpass=f=80", "afftdn=nr=9:nf=-44:nt=w", "highshelf=f=3000:g=4",
     "aexciter=amount=0.70:drive=2.5:freq=5500:ceil=16000:blend=0:level_in=1:level_out=1",
     "deesser=i=0.20:m=0.55:f=0.50"]
  else
    ["highpass=f=70", "afftdn=nr=5:nf=-45:nt=w", "highshelf=f=3500:g=2",
     "aexciter=amount=0.35:drive=2.0:freq=6000:ceil=16000:blend=0:level_in=1:level_out=1",
     "deesser=i=0.12:m=0.35:f=0.60"]

set_option maxRecDepth 10000 in
theorem pyJoin_restoreStages (strength : String) :
    pyJoin (restoreStages strength) = restoreChainsGet strength := by
  unfold restoreStages restoreChainsGet RESTORE_CHAINS
  repeat' split
  all_goals decide

theorem restoreStages_ne_nil (strength : String) : restoreStages strength ≠ [] := by
  unfold restoreStages
  repeat' split
  all_goals simp

set_option maxRecDepth 10000 in
/-- Every stage of every restore chain is comma-free, does not start with
`loudnorm`, `alimiter=` or `volume=`. -/
theorem restoreStages_props (strength : String) :
    ∀ s ∈ restoreStages strength,
      ',' ∉ s.data ∧ pyStartsWith s "loudnorm" = false ∧
      pyStartsWith s "alimiter=" = false ∧ pyStartsWith s "volume=" = false := by
  unfold restoreStages
  repeat' split
  all_goals decide

/-! ### Helpers (`_clamp01`, `_normalize_width`, `_comb_ms`, lines 118-132) -/

/-- Model of `_clamp01`: `max(0.0, min(1.0, x))`. -/
def _clamp01 (x : ℚ) : ℚ := max 0 (min 1 x)

/-- Decides whether Python `float(w)` succeeds, for the plain decimal forms
(optional sign, digits with at most one dot, at least one digit).  The
exotic forms Python also accepts (exponents, `inf`, `nan`, underscores,
surrounding whitespace) are not modelled; no preset or claim uses them. -/
def numBody (l : List Char) : Bool :=
  let intPart := l.takeWhile Char.isDigit
  let rest := l.dropWhile Char.isDigit
  match rest with
  | [] => !intPart.isEmpty
  | '.' :: frac => (!intPart.isEmpty || !frac.isEmpty) && frac.all Char.isDigit
  | _ => false

def isPyFloatString (s : String) : Bool :=
  match s.data with
  | '+' :: rest => numBody rest
  | '-' :: rest => numBody rest
  | l => numBody l

/-- Model of `_normalize_width`: append `q` if the value is a plain number
(sox EQ convention). -/
def _normalize_width (w : String) : String :=
  if isPyFloatString w then w ++ "q" else w

/-- Model of `_comb_ms`: `1000.0 / hz if hz > 0 else 5.0`. -/
def _comb_ms (hz : ℚ) : ℚ := if hz > 0 then 1000 / hz else 5

/-! ### Loudness filter expression (`_build_af`, lines 209-223) -/

/-- Model of `_build_af`: the normalization filter expression.  String
concatenation follows the Python f-strings literally; rational rendering is
`fmtRat` / `fmtSigned` (for the `{:+g}` volume format). -/
def _build_af (target_lufs true_peak lra : ℚ) (linear : Bool)
    (limit gain_db : ℚ) (restore : Bool) (strength : String) : String :=
  let ln := "loudnorm=I=" ++ fmtRat target_lufs ++ ":TP=" ++ fmtRat true_peak
      ++ ":LRA=" ++ fmtRat lra ++ ":linear=" ++ (if linear then "true" else "false")
  let base := if restore then restoreChainsGet strength ++ "," ++ ln else ln
  let vol := if gain_db = 0 then "" else ",volume=" ++ fmtSigned gain_db ++ "dB"
  base ++ vol ++ ",alimiter=limit=" ++ fmtRat limit

/-- The `loudnorm` stage of the expression. -/
def lnStage (target_lufs true_peak lra : ℚ) (linear : Bool) : String :=
  "loudnorm=I=" ++ fmtRat target_lufs ++ ":TP=" ++ fmtRat true_peak
      ++ ":LRA=" ++ fmtRat lra ++ ":linear=" ++ (if linear then "true" else "false")

/-- The `volume` stage of the expression. -/
def volStage (gain_db : ℚ) : String := "volume=" ++ fmtSigned gain_db ++ "dB"

/-- The `alimiter` stage of the expression. -/
def limStage (limit : ℚ) : String := "alimiter=limit=" ++ fmtRat limit

/-- The comma-separated stage list of the expression `_build_af` builds:
optional restore stages, the loudnorm stage, an optional volume stage, and
the limiter stage. -/
def afStages (target_lufs true_peak lra : ℚ) (linear : Bool)
    (limit gain_db : ℚ) (restore : Bool) (strength : String) : List String :=
  (if restore then restoreStages strength else [])
    ++ [lnStage target_lufs true_peak lra linear]
    ++ (if gain_db = 0 then [] else [volStage gain_db])
    ++ [limStage limit]

theorem data_comma_alim :
    (",alimiter=limit=" : String).data =
      ("," : String).data ++ ("alimiter=limit=" : String).data := by decide

theorem data_comma_vol :
    (",volume=" : String).data =
      ("," : String).data ++ ("volume=" : String).data := by decide

/-- Bridge: the string `_build_af` builds is exactly the comma-join of
`afStages`. -/
theorem build_af_eq_pyJoin (target_lufs true_peak lra : ℚ) (linear : Bool)
    (limit gain_db : ℚ) (restore : Bool) (strength : String) :
    _build_af target_lufs true_peak lra linear limit gain_db restore strength =
      pyJoin (afStages target_lufs true_peak lra linear limit gain_db restore strength) := by
  unfold _build_af afStages
  cases restore <;> by_cases hg : gain_db = 0 <;>
    simp only [hg, if_true, if_false, ite_true, ite_false, Bool.false_eq_true,
      List.nil_append, List.append_nil, List.append_assoc, List.cons_append,
      List.singleton_append]
  · -- restore = false, gain = 0 : stages are [ln, lim]
    rw [show (lnStage target_lufs true_peak lra linear :: [limStage limit]) =
      [lnStage target_lufs true_peak lra linear, limStage limit] from rfl,
      pyJoin_pair]
    unfold lnStage limStage
    apply stringEq_of_data
    simp only [dataOfAppend, stringEmpty_data, data_comma_alim,
      List.append_assoc, List.append_nil, List.nil_append, List.cons_append,
      List.singleton_append]
  · -- restore = false, gain ≠ 0 : stages are [ln, vol, lim]
    rw [pyJoin_cons _ [volStage gain_db, limStage limit] (by simp), pyJoin_pair]
    unfold lnStage volStage limStage
    apply stringEq_of_data
    simp only [dataOfAppend, stringEmpty_data, data_comma_alim, data_comma_vol,
      List.append_assoc, List.append_nil, List.nil_append, List.cons_append,
      List.singleton_append]
  · -- restore = true, gain = 0
    rw [pyJoin_append (restoreStages strength) _ (restoreStages_ne_nil _) (by simp),
      pyJoin_restoreStages,
      show (lnStage target_lufs true_peak lra linear :: [limStage limit]) =
        [lnStage target_lufs true_peak lra linear, limStage limit] from rfl,
      pyJoin_pair]
    unfold lnStage limStage
    apply stringEq_of_data
    simp only [dataOfAppend, stringEmpty_data, data_comma_alim,
      List.append_assoc, List.append_nil, List.nil_append, List.cons_append,
      List.singleton_append]
  · -- restore = true, gain ≠ 0
    rw [pyJoin_append (restoreStages strength) _ (restoreStages_ne_nil _) (by simp),
      pyJoin_restoreStages,
      pyJoin_cons _ [volStage gain_db, limStage limit] (by simp), pyJoin_pair]
    unfold lnStage volStage limStage
    apply stringEq_of_data
    simp only [dataOfAppend, stringEmpty_data, data_comma_alim, data_comma_vol,
      List.append_assoc, List.append_nil, List.nil_append, List.cons_append,
      List.singleton_append]

/-! ### Shape properties of the expression stages -/

theorem comma_notMem_append {a b : List Char} (ha : ',' ∉ a) (hb : ',' ∉ b) :
    ',' ∉ a ++ b := by
  simp only [List.mem_append, not_or]
  exact ⟨ha, hb⟩

theorem fmtSigned_comma (q : ℚ) : ',' ∉ (fmtSigned q).data := by
  unfold fmtSigned
  rw [dataOfAppend]
  apply comma_notMem_append
  · split <;> decide
  · exact fmtRat_comma q

theorem lnStage_comma (I TP LRA : ℚ) (lin : Bool) :
    ',' ∉ (lnStage I TP LRA lin).data := by
  unfold lnStage
  simp only [dataOfAppend, List.mem_append, not_or]
  repeat' apply And.intro
  all_goals first
    | exact fmtRat_comma _
    | (cases lin <;> decide)

theorem volStage_comma (g : ℚ) : ',' ∉ (volStage g).data := by
  unfold volStage
  simp only [dataOfAppend, List.mem_append, not_or]
  repeat' apply And.intro
  all_goals first
    | exact fmtSigned_comma _
    | decide

theorem limStage_comma (l : ℚ) : ',' ∉ (limStage l).data := by
  unfold limStage
  simp only [dataOfAppend]
  apply comma_notMem_append
  · decide
  · exact fmtRat_comma _

theorem afStages_comma (target_lufs true_peak lra : ℚ) (linear : Bool)
    (limit gain_db : ℚ) (restore : Bool) (strength : String) :
    ∀ s ∈ afStages target_lufs true_peak lra linear limit gain_db restore strength,
      ',' ∉ s.data := by
  intro s hs
  unfold afStages at hs
  simp only [List.mem_append, List.mem_singleton] at hs
  rcases hs with ((hs | hs) | hs) | hs
  · rcases restore with _ | _
    · simp at hs
    · simp only [ite_true, if_true] at hs
      exact (restoreStages_props strength s hs).1
  · subst hs; exact lnStage_comma _ _ _ _
  · by_cases h0 : gain_db = 0
    · rw [if_pos h0] at hs
      simp at hs
    · rw [if_neg h0] at hs
      simp only [List.mem_singleton] at hs
      subst hs; exact volStage_comma _
  · subst hs; exact limStage_comma _

theorem afStages_ne_nil (target_lufs true_peak lra : ℚ) (linear : Bool)
    (limit gain_db : ℚ) (restore : Bool) (strength : String) :
    afStages target_lufs true_peak lra linear limit gain_db restore strength ≠ [] := by
  unfold afStages
  rcases restore with _ | _ <;> by_cases h0 : gain_db = 0 <;> simp [h0]

/-- Splitting the built expression on commas recovers exactly its stage
list (Python line 240 / 246: `af.split(",")`). -/
theorem pySplit_build_af (target_lufs true_peak lra : ℚ) (linear : Bool)
    (limit gain_db : ℚ) (restore : Bool) (strength : String) :
    pySplit (_build_af target_lufs true_peak lra linear limit gain_db restore strength) =
      afStages target_lufs true_peak lra linear limit gain_db restore strength := by
  rw [build_af_eq_pyJoin]
  exact pySplit_pyJoin _ (afStages_ne_nil _ _ _ _ _ _ _ _)
    (afStages_comma _ _ _ _ _ _ _ _)

theorem pyStartsWith_false_of_head {s p : String} {c d : Char} {cs ds : List Char}
    (hs : s.data = c :: cs) (hp : p.data = d :: ds) (h : c ≠ d) :
    pyStartsWith s p = false := by
  unfold pyStartsWith
  rw [hs, hp]
  simp only [List.isPrefixOf_cons₂]
  have hdc : (d == c) = false := beq_eq_false_iff_ne.mpr (Ne.symm h)
  simp [hdc]

theorem isPrefixOf_append_left {p a : List Char} (h : p.isPrefixOf a = true)
    (b : List Char) : p.isPrefixOf (a ++ b) = true := by
  induction p generalizing a with
  | nil => simp [List.isPrefixOf]
  | cons c cs ih =>
    cases a with
    | nil => simp [List.isPrefixOf] at h
    | cons x xs =>
      simp only [List.isPrefixOf_cons₂, Bool.and_eq_true] at h
      simp only [List.cons_append, List.isPrefixOf_cons₂, Bool.and_eq_true]
      exact ⟨h.1, ih h.2⟩

theorem lnStage_data_head (I TP LRA : ℚ) (lin : Bool) :
    ∃ t, (lnStage I TP LRA lin).data = 'l' :: t := by
  unfold lnStage
  simp only [dataOfAppend, List.cons_append, List.append_assoc]
  exact ⟨_, rfl⟩

theorem volStage_data_head (g : ℚ) :
    ∃ t, (volStage g).data = 'v' :: t := by
  unfold volStage
  simp only [dataOfAppend, List.cons_append, List.append_assoc]
  exact ⟨_, rfl⟩

theorem limStage_data_head (l : ℚ) :
    ∃ t, (limStage l).data = 'a' :: t := by
  unfold limStage
  simp only [dataOfAppend, List.cons_append, List.append_assoc]
  exact ⟨_, rfl⟩

theorem lnStage_startsWith_loudnorm (I TP LRA : ℚ) (lin : Bool) :
    pyStartsWith (lnStage I TP LRA lin) "loudnorm" = true := by
  unfold pyStartsWith lnStage
  simp only [dataOfAppend, List.append_assoc]
  exact isPrefixOf_append_left (by decide) _

theorem limStage_startsWith_alimiter (l : ℚ) :
    pyStartsWith (limStage l) "alimiter=" = true := by
  unfold pyStartsWith limStage
  simp only [dataOfAppend, List.append_assoc]
  exact isPrefixOf_append_left (by decide) _

theorem lnStage_not_alimiter (I TP LRA : ℚ) (lin : Bool) :
    pyStartsWith (lnStage I TP LRA lin) "alimiter=" = false := by
  rcases lnStage_data_head I TP LRA lin with ⟨t, ht⟩
  exact pyStartsWith_false_of_head ht
    (show ("alimiter=" : String).data = 'a' :: ['l', 'i', 'm', 'i', 't', 'e', 'r', '=']
      from by decide) (by decide)

theorem lnStage_not_volume (I TP LRA : ℚ) (lin : Bool) :
    pyStartsWith (lnStage I TP LRA lin) "volume=" = false := by
  rcases lnStage_data_head I TP LRA lin with ⟨t, ht⟩
  exact pyStartsWith_false_of_head ht
    (show ("volume=" : String).data = 'v' :: ['o', 'l', 'u', 'm', 'e', '=']
      from by decide) (by decide)

theorem volStage_not_alimiter (g : ℚ) :
    pyStartsWith (volStage g) "alimiter=" = false := by
  rcases volStage_data_head g with ⟨t, ht⟩
  exact pyStartsWith_false_of_head ht
    (show ("alimiter=" : String).data = 'a' :: ['l', 'i', 'm', 'i', 't', 'e', 'r', '=']
      from by decide) (by decide)

theorem volStage_not_loudnorm (g : ℚ) :
    pyStartsWith (volStage g) "loudnorm" = false := by
  rcases volStage_data_head g with ⟨t, ht⟩
  exact pyStartsWith_false_of_head ht
    (show ("loudnorm" : String).data = 'l' :: ['o', 'u', 'd', 'n', 'o', 'r', 'm']
      from by decide) (by decide)

theorem limStage_not_volume (l : ℚ) :
    pyStartsWith (limStage l) "volume=" = false := by
  rcases limStage_data_head l with ⟨t, ht⟩
  exact pyStartsWith_false_of_head ht
    (show ("volume=" : String).data = 'v' :: ['o', 'l', 'u', 'm', 'e', '=']
      from by decide) (by decide)

theorem volStage_starts_volume (g : ℚ) :
    ∃ t, volStage g = "volume=" ++ t := by
  exact ⟨fmtSigned g ++ "dB", by unfold volStage; rw [stringAppend_assoc]⟩

/-! ### ffmpeg loudness render (`_render_ffmpeg`, lines 226-254) -/

/-- First index of an element satisfying `p`, modelling the Python
expression `[i for i, p in enumerate(parts) if p.startswith(...)][0]`
(`none` models the `IndexError` raised when no element matches). -/
def firstIdxSat (p : α → Bool) : List α → Option Nat
  | [] => none
  | x :: xs => if p x then some 0 else (firstIdxSat p xs).map (· + 1)

theorem firstIdxSat_append_first {p : α → Bool} (xs : List α)
    (hxs : ∀ x ∈ xs, p x = false) {y : α} (hy : p y = true) (ys : List α) :
    firstIdxSat p (xs ++ y :: ys) = some xs.length := by
  induction xs with
  | nil => simp [firstIdxSat, hy]
  | cons a t ih =>
    have ha : p a = false := hxs a (by simp)
    simp only [List.cons_append, firstIdxSat, ha, Bool.false_eq_true, if_false,
      ite_false, List.append_eq]
    rw [ih (fun x hx => hxs x (List.mem_cons_of_mem a hx))]
    simp

/-- The filesystem fragment one render touches: the destination file and
the temporary sibling `.tmp_<name>.ogg` file, each `none` when absent or
`some content` when present. -/
structure RenderFS where
  dst : Option String
  tmp : Option String
deriving DecidableEq

/-- Model of `_render_ffmpeg`.  The executor `ex` maps the filter
expression passed via `-af` (the only varying part of the ffmpeg command)
to the invocation's exit status and the content the invocation leaves in
the temporary file (`some` output on success; whatever partial content, or
`none`, a failed invocation leaves behind).

Control flow mirrors the source line by line: try the full expression;
on non-zero exit drop the `alimiter` stage
(`",".join(f for f in af.split(",") if not f.startswith("alimiter="))`);
on non-zero exit keep only the stages from `loudnorm` onward and run with
`check=True` (non-zero exit raises).  A successful invocation is followed
by `tmp.replace(dst)` (modelled: destination takes the temporary file's
content, the temporary file disappears; replacing a missing temporary file
raises).  The `except` clause unlinks the temporary file and re-raises, so
every error exit leaves `tmp = none` and the destination untouched.
Returns the final filesystem fragment, the outcome, and the trace of
attempted `-af` expressions in order. -/
def _render_ffmpeg (ex : String → Int × Option String) (af : String)
    (fs0 : RenderFS) : RenderFS × Except String Unit × List String :=
  let a1 := ex af
  if a1.1 = 0 then
    match a1.2 with
    | some c => (⟨some c, none⟩, Except.ok (), [af])
    | none => (⟨fs0.dst, none⟩, Except.error "replace: tmp missing", [af])
  else
    let af2 := pyJoin ((pySplit af).filter fun f => !(pyStartsWith f "alimiter="))
    let a2 := ex af2
    if a2.1 = 0 then
      match a2.2 with
      | some c => (⟨some c, none⟩, Except.ok (), [af, af2])
      | none => (⟨fs0.dst, none⟩, Except.error "replace: tmp missing", [af, af2])
    else
      let parts := pySplit af2
      match firstIdxSat (fun p => pyStartsWith p "loudnorm") parts with
      | none => (⟨fs0.dst, none⟩, Except.error "IndexError", [af, af2])
      | some i =>
        let af3 := pyJoin (parts.drop i)
        let a3 := ex af3
        if a3.1 = 0 then
          match a3.2 with
          | some c => (⟨some c, none⟩, Except.ok (), [af, af2, af3])
          | none => (⟨fs0.dst, none⟩, Except.error "replace: tmp missing", [af, af2, af3])
        else
          (⟨fs0.dst, none⟩, Except.error "command failed", [af, af2, af3])

/-- Stage list of the expression with the limiter stage removed
(fallback variant 2 of the render ladder). -/
def afStagesNoLim (target_lufs true_peak lra : ℚ) (linear : Bool)
    (gain_db : ℚ) (restore : Bool) (strength : String) : List String :=
  (if restore then restoreStages strength else [])
    ++ [lnStage target_lufs true_peak lra linear]
    ++ (if gain_db = 0 then [] else [volStage gain_db])

/-- The expression with the limiter stage removed. -/
def afNoLimiter (target_lufs true_peak lra : ℚ) (linear : Bool)
    (gain_db : ℚ) (restore : Bool) (strength : String) : String :=
  pyJoin (afStagesNoLim target_lufs true_peak lra linear gain_db restore strength)

/-- The expression truncated to begin at the loudnorm stage: any restore
chain is discarded, the optional volume stage and nothing else follows
(fallback variant 3 of the render ladder; the limiter is already gone). -/
def afLoudnormOnward (target_lufs true_peak lra : ℚ) (linear : Bool)
    (gain_db : ℚ) : String :=
  pyJoin (lnStage target_lufs true_peak lra linear
    :: (if gain_db = 0 then [] else [volStage gain_db]))

theorem afStages_filter_alimiter (target_lufs true_peak lra : ℚ) (linear : Bool)
    (limit gain_db : ℚ) (restore : Bool) (strength : String) :
    (afStages target_lufs true_peak lra linear limit gain_db restore strength).filter
        (fun f => !(pyStartsWith f "alimiter=")) =
      afStagesNoLim target_lufs true_peak lra linear gain_db restore strength := by
  unfold afStages afStagesNoLim
  simp only [List.filter_append]
  have h1 : (if restore then restoreStages strength else []).filter
      (fun f => !(pyStartsWith f "alimiter=")) =
      (if restore then restoreStages strength else []) := by
    rcases restore with _ | _
    · simp
    · simp only [ite_true, if_true]
      apply List.filter_eq_self.mpr
      intro a ha
      simp [(restoreStages_props strength a ha).2.2.1]
  have h2 : ([lnStage target_lufs true_peak lra linear] : List String).filter
      (fun f => !(pyStartsWith f "alimiter=")) =
      [lnStage target_lufs true_peak lra linear] := by
    simp [List.filter_cons, lnStage_not_alimiter]
  have h3 : (if gain_db = 0 then ([] : List String) else [volStage gain_db]).filter
      (fun f => !(pyStartsWith f "alimiter=")) =
      (if gain_db = 0 then ([] : List String) else [volStage gain_db]) := by
    by_cases h0 : gain_db = 0
    · simp [h0]
    · simp [h0, List.filter_cons, volStage_not_alimiter]
  have h4 : (([limStage limit] : List String)).filter
      (fun f => !(pyStartsWith f "alimiter=")) = [] := by
    simp [List.filter_cons, limStage_startsWith_alimiter]
  rw [h1, h2, h3, h4, List.append_nil]

theorem afStagesNoLim_comma (target_lufs true_peak lra : ℚ) (linear : Bool)
    (gain_db : ℚ) (restore : Bool) (strength : String) :
    ∀ s ∈ afStagesNoLim target_lufs true_peak lra linear gain_db restore strength,
      ',' ∉ s.data := by
  intro s hs
  unfold afStagesNoLim at hs
  simp only [List.mem_append, List.mem_singleton] at hs
  rcases hs with (hs | hs) | hs
  · rcases restore with _ | _
    · simp at hs
    · simp only [ite_true, if_true] at hs
      exact (restoreStages_props strength s hs).1
  · subst hs; exact lnStage_comma _ _ _ _
  · by_cases h0 : gain_db = 0
    · rw [if_pos h0] at hs
      simp at hs
    · rw [if_neg h0] at hs
      simp only [List.mem_singleton] at hs
      subst hs; exact volStage_comma _

theorem afStagesNoLim_ne_nil (target_lufs true_peak lra : ℚ) (linear : Bool)
    (gain_db : ℚ) (restore : Bool) (strength : String) :
    afStagesNoLim target_lufs true_peak lra linear gain_db restore strength ≠ [] := by
  unfold afStagesNoLim
  rcases restore with _ | _ <;> by_cases h0 : gain_db = 0 <;> simp [h0]

theorem pySplit_afNoLimiter (target_lufs true_peak lra : ℚ) (linear : Bool)
    (gain_db : ℚ) (restore : Bool) (strength : String) :
    pySplit (afNoLimiter target_lufs true_peak lra linear gain_db restore strength) =
      afStagesNoLim target_lufs true_peak lra linear gain_db restore strength := by
  exact pySplit_pyJoin _ (afStagesNoLim_ne_nil _ _ _ _ _ _ _)
    (afStagesNoLim_comma _ _ _ _ _ _ _)

theorem afStagesNoLim_decomp (target_lufs true_peak lra : ℚ) (linear : Bool)
    (gain_db : ℚ) (restore : Bool) (strength : String) :
    afStagesNoLim target_lufs true_peak lra linear gain_db restore strength =
      (if restore then restoreStages strength else []) ++
        lnStage target_lufs true_peak lra linear
          :: (if gain_db = 0 then [] else [volStage gain_db]) := by
  unfold afStagesNoLim
  simp [List.append_assoc]

theorem firstIdxSat_afStagesNoLim (target_lufs true_peak lra : ℚ) (linear : Bool)
    (gain_db : ℚ) (restore : Bool) (strength : String) :
    firstIdxSat (fun p => pyStartsWith p "loudnorm")
        (afStagesNoLim target_lufs true_peak lra linear gain_db restore strength) =
      some (if restore then restoreStages strength else []).length := by
  rw [afStagesNoLim_decomp]
  apply firstIdxSat_append_first
  · intro x hx
    rcases restore with _ | _
    · simp at hx
    · simp only [ite_true, if_true] at hx
      exact (restoreStages_props strength x hx).2.1
  · exact lnStage_startsWith_loudnorm _ _ _ _

theorem drop_afStagesNoLim (target_lufs true_peak lra : ℚ) (linear : Bool)
    (gain_db : ℚ) (restore : Bool) (strength : String) :
    (afStagesNoLim target_lufs true_peak lra linear gain_db restore strength).drop
        (if restore then restoreStages strength else []).length =
      lnStage target_lufs true_peak lra linear
        :: (if gain_db = 0 then [] else [volStage gain_db]) := by
  rw [afStagesNoLim_decomp]
  exact List.drop_left _ _

/-! ### Encode to ogg (`_encode_to_ogg`, lines 147-153) -/

/-- The fixed sample rate (`SR = 44100`, line 34). -/
def SR : ℕ := 44100

/-- Model of `_encode_to_ogg`.  The executor maps a full command argument
list to its exit status.  The primary invocation is sox at the configured
quality (`-C str(quality)`); on non-zero exit the ffmpeg fallback is run
with `check=True` (its non-zero exit raises), and its quality argument is
the literal `"5"` exactly as in the source (`"-q:a", "5"`).  Returns the
outcome and the list of commands attempted, in order. -/
def _encode_to_ogg (ex : List String → Int) (sox ffmpeg : String)
    (src dst : String) (quality : ℤ) : Except String Unit × List (List String) :=
  let c1 := [sox, "-r", fmtInt (SR : ℤ), "-c", "1", "-C", fmtInt quality, src, dst]
  if ex c1 = 0 then (Except.ok (), [c1])
  else
    let c2 := [ffmpeg, "-v", "error", "-y", "-i", src, "-ar", fmtInt (SR : ℤ),
               "-ac", "1", "-c:a", "libvorbis", "-q:a", "5", dst]
    (if ex c2 = 0 then Except.ok () else Except.error "command failed", [c1, c2])

/-- The argument following the first occurrence of `key` in a command
argument list (used to read a command's quality setting). -/
def argAfter (key : String) : List String → Option String
  | [] => none
  | [_] => none
  | x :: y :: t => if x = key then some y else argAfter key (y :: t)

/-! ### Armor effect pipeline (`apply_armorfx`, lines 156-202) -/

/-- One sox effect of the wet chain, in the order the command line names
them (`highpass f`, `lowpass f`, `equalizer f w g`,
`echo gin gout [delay decay]*`). -/
inductive SoxEffect
  | highpass (f : ℤ)
  | lowpass (f : ℤ)
  | equalizer (f : ℤ) (w : String) (g : ℚ)
  | echo (gin gout : ℚ) (taps : List (ℚ × ℚ))
deriving DecidableEq

/-- The final gain stage: `gain -n -<headroom>` (normalize peak to
`-headroom` dB) when leveling is enabled, else the fixed `gain -3` trim. -/
inductive GainStage
  | normalizeTo (headroom_db : ℚ)
  | fixedTrim (db : ℚ)
deriving DecidableEq

/-- The armor pipeline plan: the data of the sox invocations
`apply_armorfx` performs, in order — wet-chain effects over the mono
decode, the `-m` mix of dry and wet at `(dry_level, wet)`, the gain stage,
and the wet/dry/comb parameters they are built from. -/
structure ArmorPlan where
  wetLevel : ℚ
  dryLevel : ℚ
  combMs : ℚ
  wetEffects : List SoxEffect
  mixLevels : ℚ × ℚ
  gain : GainStage
deriving DecidableEq

/-- Model of `apply_armorfx` (the pure plan of its sox invocations; the
decode and final encode stages are modelled separately).  Mirrors
lines 162-200: `wet = _clamp01(p.wet * p.wet_gain)`,
`dry_level = 1.0 - wet`, `comb_ms = _comb_ms(p.comb_hz)`, width
normalisation of the EQ bands, the wet chain
highpass/lowpass/eq/eq/lowpass/echo/lowpass, the mix at
`(dry_level, wet)`, and `gain -n -headroom` or `gain -3`. -/
def apply_armorfx (p : ArmorPreset) : ArmorPlan :=
  let wet := _clamp01 (p.wet * p.wet_gain)
  let dry_level := 1 - wet
  let comb_ms := _comb_ms p.comb_hz
  let eq1_w := _normalize_width p.eq1_w
  let eq2_w := _normalize_width p.eq2_w
  { wetLevel := wet
    dryLevel := dry_level
    combMs := comb_ms
    wetEffects :=
      [SoxEffect.highpass p.hipass,
       SoxEffect.lowpass p.lopass,
       SoxEffect.equalizer p.eq1_f eq1_w p.eq1_g,
       SoxEffect.equalizer p.eq2_f eq2_w p.eq2_g,
       SoxEffect.lowpass p.inner_lp,
       SoxEffect.echo (3/4) (3/4) [(p.slap_ms, p.slap_decay), (comb_ms, p.comb_decay)],
       SoxEffect.lowpass p.lopass]
    mixLevels := (dry_level, wet)
    gain := if p.normalize then GainStage.normalizeTo p.headroom_db
            else GainStage.fixedTrim (-3) }

/-! ### Per-file worker and batch scheduler (lines 261-416) -/

/-- The execution flags of the `Config` dataclass that drive the control
flow modelled here (the numeric loudness fields feed `_build_af` and are
passed through unchanged, so they are not repeated in this fragment). -/
structure Config where
  dry_run : Bool := false
  skip_existing : Bool := false
  in_place : Bool := false
  helmet_only : Bool := false
deriving DecidableEq

/-- Model of `_should_restore` (line 288). -/
def _should_restore (mode which : String) : Bool :=
  mode = "both" || mode = which

/-- An externally visible side effect of a per-file pipeline run. -/
inductive Effect
  | runProc (cmd : List String)
  | mkdir (dir : String)
  | writeFile (path : String)
deriving DecidableEq

/-- Model of `process_file` (lines 292-338).  `rel` is the source path
relative to the scan root, `helmetExists` the result of the
`helmet_out.exists()` probe, and `run` the body of the `try` block
(lines 313-335: the normal loudnorm render, the armor pipeline and the
helmet render) — given as the effects it performs together with `ok` or
the exception message it raises.  The skip check, the dry-run check (both
before the `try` block and before any external process or directory
creation) and the `except` clause that formats the error as
`f"{rel}: {exc}"` are modelled directly.  Returns the error string
(`none` on success) and the effects performed. -/
def process_file (cfg : Config) (rel : String) (helmetExists : Bool)
    (run : List Effect × Except String Unit) : Option String × List Effect :=
  if cfg.skip_existing && helmetExists then (none, [])
  else if cfg.dry_run then (none, [])
  else
    match run.2 with
    | Except.ok () => (none, run.1)
    | Except.error e => (some (rel ++ ": " ++ e), run.1)

/-- Model of `_need` (lines 108-115): `avail` is the availability probe
(`shutil.which(..) or Path(..).is_file()`); the primary name is returned
when available, else the fallback when given and available, else the
lookup fails. -/
def _need (avail : String → Bool) (primary : String) (fallback : Option String) :
    Option String :=
  if avail primary then some primary
  else
    match fallback with
    | some fb => if avail fb then some fb else none
    | none => none

/-- Discovery predicate of `cmd_apply` (lines 387-392): `.ogg` files
(the `rglob("*.ogg")` pattern), whose name does not start with `m_`
case-insensitively (`f.name.lower().startswith("m_")`), whose name does
not start with `.tmp_` (case-sensitive), and — unless `in_place` — whose
resolved path string does not start with the resolved output root
(`str(f.resolve()).startswith(str(out_abs))`).  Paths are modelled as
already-resolved absolute path strings. -/
def discoverPred (out_abs : String) (in_place : Bool) (f : String) : Bool :=
  pyEndsWith f ".ogg"
    && !(pyStartsWith (pyLower (pathName f)) "m_")
    && !(pyStartsWith (pathName f) ".tmp_")
    && (in_place || !(pyStartsWith f out_abs))

/-- Stable insertion of `x` into `l`: `x` goes in front of the first
element it is `le`-below-or-equal.  Building block of `pySorted`. -/
def insertLe (le : α → α → Bool) (x : α) : List α → List α
  | [] => [x]
  | y :: ys => if le x y then x :: y :: ys else y :: insertLe le x ys

/-- Model of Python `sorted(...)`: a stable ascending sort (insertion
sort; Python's timsort computes the same list for a total order). -/
def pySorted (le : α → α → Bool) : List α → List α
  | [] => []
  | x :: xs => insertLe le x (pySorted le xs)

theorem mem_insertLe (le : α → α → Bool) (x a : α) (l : List α) :
    a ∈ insertLe le x l ↔ a = x ∨ a ∈ l := by
  induction l with
  | nil => simp [insertLe]
  | cons y ys ih =>
    simp only [insertLe]
    split
    · simp
    · simp only [List.mem_cons, ih]
      tauto

theorem mem_pySorted (le : α → α → Bool) (a : α) (l : List α) :
    a ∈ pySorted le l ↔ a ∈ l := by
  induction l with
  | nil => simp [pySorted]
  | cons x xs ih => simp [pySorted, mem_insertLe, ih]

theorem pairwise_insertLe (le : α → α → Bool)
    (htrans : ∀ a b c, le a b = true → le b c = true → le a c = true)
    (htotal : ∀ a b, le a b || le b a) (x : α) (l : List α)
    (h : l.Pairwise (fun a b => le a b = true)) :
    (insertLe le x l).Pairwise (fun a b => le a b = true) := by
  induction l with
  | nil => simp [insertLe]
  | cons y ys ih =>
    rcases List.pairwise_cons.mp h with ⟨hy, hys⟩
    simp only [insertLe]
    split
    · rename_i hxy
      refine List.pairwise_cons.mpr ⟨?_, h⟩
      intro z hz
      rcases List.mem_cons.mp hz with hzx | hz2
      · rw [hzx]
        exact hxy
      · exact htrans x y z hxy (hy z hz2)
    · rename_i hxy
      refine List.pairwise_cons.mpr ⟨?_, ih hys⟩
      intro z hz
      rcases (mem_insertLe le x z ys).mp hz with hzx | hz2
      · rw [hzx]
        have := htotal x y
        simp only [Bool.or_eq_true] at this
        rcases this with h1 | h1
        · exact absurd h1 hxy
        · exact h1
      · exact hy z hz2

theorem pairwise_pySorted (le : α → α → Bool)
    (htrans : ∀ a b c, le a b = true → le b c = true → le a c = true)
    (htotal : ∀ a b, le a b || le b a) (l : List α) :
    (pySorted le l).Pairwise (fun a b => le a b = true) := by
  induction l with
  | nil => simp [pySorted]
  | cons x xs ih => exact pairwise_insertLe le htrans htotal x (pySorted le xs) ih

/-- Discovery of `cmd_apply` (lines 387-392): filter the tree's files by
`discoverPred` and sort (`sorted(...)` over path strings). -/
def discover (out_abs : String) (in_place : Bool) (files : List String) :
    List String :=
  pySorted pyLe (files.filter (discoverPred out_abs in_place))

/-- Model of the batch run of `cmd_apply` (lines 352-416): resolve the two
engine binaries (`_need(args.sox, "sox")`, `_need(args.ffmpeg)`); on
failure return exit status 1; with no discovered files return 0; otherwise
run `proc` on every file (the worker pool runs `process_file` for each
file and collects every non-`None` result), and return exit status 1
exactly when some file produced an error, together with the collected
error strings. -/
def cmd_apply_run (avail : String → Bool) (soxArg ffmpegArg : String)
    (files : List String) (proc : String → Option String) :
    Int × List String :=
  match _need avail soxArg (some "sox"), _need avail ffmpegArg none with
  | some _, some _ =>
    if files.isEmpty then (0, [])
    else ((if (files.filterMap proc).isEmpty then 0 else 1), files.filterMap proc)
  | _, _ => (1, [])

/-! ### Claim theorems -/

theorem lnStage_decomp (I TP LRA : ℚ) (lin : Bool) :
    lnStage I TP LRA lin = "loudnorm=I=" ++ (fmtRat I ++ (":TP=" ++ (fmtRat TP
      ++ (":LRA=" ++ (fmtRat LRA ++ (":linear="
      ++ (if lin then "true" else "false"))))))) := by
  unfold lnStage
  simp [stringAppend_assoc]

set_option maxRecDepth 10000 in
/-- C5: for all loudness parameters, limiter ceiling, gain trim, restore
flag and strength: the built filter expression is the comma-join of its
stage list; with restore disabled every stage is a loudnorm, volume or
alimiter stage (no restoration stage); with restore enabled and strength
strong the strong tier's fixed parameters appear verbatim as the leading
chain; a volume stage is present iff the gain trim is non-zero; and the
peak limiter is always the final stage. -/
theorem C5_build_af_structure (target_lufs true_peak lra : ℚ) (linear : Bool)
    (limit gain_db : ℚ) (restore : Bool) (strength : String) :
    _build_af target_lufs true_peak lra linear limit gain_db restore strength =
      pyJoin (afStages target_lufs true_peak lra linear limit gain_db restore strength) ∧
    (restore = false →
      ∀ s ∈ afStages target_lufs true_peak lra linear limit gain_db restore strength,
        (∃ t, s = "loudnorm=I=" ++ t) ∨ (∃ t, s = "volume=" ++ t) ∨
          (∃ t, s = "alimiter=limit=" ++ t)) ∧
    (restore = true → strength = "strong" →
      ∃ t, _build_af target_lufs true_peak lra linear limit gain_db restore strength =
        "highpass=f=80,afftdn=nr=9:nf=-44:nt=w,highshelf=f=3000:g=4,aexciter=amount=0.70:drive=2.5:freq=5500:ceil=16000:blend=0:level_in=1:level_out=1,deesser=i=0.20:m=0.55:f=0.50"
          ++ ("," ++ t)) ∧
    ((∃ s ∈ afStages target_lufs true_peak lra linear limit gain_db restore strength,
        ∃ t, s = "volume=" ++ t) ↔ gain_db ≠ 0) ∧
    (afStages target_lufs true_peak lra linear limit gain_db restore strength).getLast? =
      some ("alimiter=limit=" ++ fmtRat limit) := by
  refine ⟨build_af_eq_pyJoin _ _ _ _ _ _ _ _, ?_, ?_, ?_, ?_⟩
  · -- restore = false: only loudnorm / volume / alimiter stages
    intro hr s hs
    subst hr
    unfold afStages at hs
    simp only [Bool.false_eq_true, if_false, ite_false, List.nil_append,
      List.mem_append, List.mem_singleton] at hs
    rcases hs with (hs | hs) | hs
    · exact Or.inl ⟨_, by rw [hs, lnStage_decomp]⟩
    · right; left
      by_cases h0 : gain_db = 0
      · rw [if_pos h0] at hs
        simp at hs
      · rw [if_neg h0] at hs
        simp only [List.mem_singleton] at hs
        subst hs
        exact volStage_starts_volume gain_db
    · subst hs
      exact Or.inr (Or.inr ⟨fmtRat limit, rfl⟩)
  · -- restore = true, strength = "strong": chain verbatim as leading text
    intro hr hst
    subst hr hst
    unfold _build_af
    rw [show restoreChainsGet "strong" = restoreChainStrong from by decide,
      show restoreChainStrong =
        ("highpass=f=80,afftdn=nr=9:nf=-44:nt=w,highshelf=f=3000:g=4,aexciter=amount=0.70:drive=2.5:freq=5500:ceil=16000:blend=0:level_in=1:level_out=1,deesser=i=0.20:m=0.55:f=0.50" : String)
        from rfl]
    refine ⟨("loudnorm=I=" ++ fmtRat target_lufs ++ ":TP=" ++ fmtRat true_peak
      ++ ":LRA=" ++ fmtRat lra ++ ":linear=" ++ (if linear then "true" else "false"))
      ++ (if gain_db = 0 then "" else ",volume=" ++ fmtSigned gain_db ++ "dB")
      ++ ",alimiter=limit=" ++ fmtRat limit, ?_⟩
    simp only [if_pos rfl, ite_true, stringAppend_assoc]
  · -- volume stage present iff gain non-zero
    constructor
    · rintro ⟨s, hs, t, hst⟩
      by_cases h0 : gain_db = 0
      · exfalso
        have hsw : pyStartsWith s "volume=" = true := by
          rw [hst]; exact pyStartsWith_self_append _ _
        unfold afStages at hs
        rw [if_pos h0] at hs
        simp only [List.append_nil, List.nil_append, List.mem_append,
          List.mem_singleton] at hs
        rcases hs with (hs | hs) | hs
        · rcases restore with _ | _
          · simp at hs
          · simp only [ite_true, if_true] at hs
            rw [(restoreStages_props strength s hs).2.2.2] at hsw
            exact absurd hsw (by simp)
        · subst hs
          rw [lnStage_not_volume] at hsw
          exact absurd hsw (by simp)
        · subst hs
          rw [limStage_not_volume] at hsw
          exact absurd hsw (by simp)
      · exact h0
    · intro h0
      refine ⟨volStage gain_db, ?_, volStage_starts_volume gain_db⟩
      unfold afStages
      rw [if_neg h0]
      simp [List.mem_append]
  · -- the limiter is the final stage
    unfold afStages
    rw [List.getLast?_concat]
    rfl

/-- C5 witness: a concrete instantiation; with restore enabled at strength
strong and a non-zero gain trim, the expression is the join of its stages
and carries the strong chain verbatim in front. -/
theorem C5_build_af_structure_witness :
    _build_af (-16) (-2) 11 true (17/20) 2 true "strong" =
      pyJoin (afStages (-16) (-2) 11 true (17/20) 2 true "strong") ∧
    (∃ t, _build_af (-16) (-2) 11 true (17/20) 2 true "strong" =
      "highpass=f=80,afftdn=nr=9:nf=-44:nt=w,highshelf=f=3000:g=4,aexciter=amount=0.70:drive=2.5:freq=5500:ceil=16000:blend=0:level_in=1:level_out=1,deesser=i=0.20:m=0.55:f=0.50"
        ++ ("," ++ t)) := by
  have h := C5_build_af_structure (-16) (-2) 11 true (17/20) 2 true "strong"
  exact ⟨h.1, h.2.2.1 rfl rfl⟩

/-- C9: for every strength outside the three known tiers, building the
expression with restore enabled does not fail and instead substitutes the
mild tier: the result equals the mild-strength expression. -/
theorem C9_unknown_strength_falls_back_to_mild (target_lufs true_peak lra : ℚ)
    (linear : Bool) (limit gain_db : ℚ) (strength : String)
    (h1 : strength ≠ "mild") (h2 : strength ≠ "medium") (h3 : strength ≠ "strong") :
    _build_af target_lufs true_peak lra linear limit gain_db true strength =
      _build_af target_lufs true_peak lra linear limit gain_db true "mild" := by
  have hc : restoreChainsGet strength = restoreChainsGet "mild" := by
    unfold restoreChainsGet RESTORE_CHAINS
    rw [if_neg h1, if_neg h2, if_neg h3]
    simp
  unfold _build_af
  rw [hc]

/-- C9 witness: the unknown strength "extreme" yields the mild expression. -/
theorem C9_unknown_strength_falls_back_to_mild_witness :
    _build_af (-16) (-2) 11 true (17/20) 0 true "extreme" =
      _build_af (-16) (-2) 11 true (17/20) 0 true "mild" :=
  C9_unknown_strength_falls_back_to_mild (-16) (-2) 11 true (17/20) 0 "extreme"
    (by decide) (by decide) (by decide)

/-- C2: a loudness render never leaves the temporary sibling file behind;
whenever the render ends in an error — a failed variant ladder or an
exception between writing the temporary file and replacing the
destination — the destination is exactly as it was before the render
(absent or holding its previous content); and the destination changes only
by taking the content a zero-exit invocation left in the temporary file. -/
theorem C2_render_atomic (ex : String → Int × Option String) (af : String)
    (fs0 : RenderFS) :
    (_render_ffmpeg ex af fs0).1.tmp = none ∧
    (∀ e, (_render_ffmpeg ex af fs0).2.1 = Except.error e →
      (_render_ffmpeg ex af fs0).1.dst = fs0.dst) ∧
    ((_render_ffmpeg ex af fs0).2.1 = Except.ok () →
      ∃ v c, v ∈ (_render_ffmpeg ex af fs0).2.2 ∧ (ex v).1 = 0 ∧
        (ex v).2 = some c ∧ (_render_ffmpeg ex af fs0).1.dst = some c) := by
  unfold _render_ffmpeg
  by_cases h1 : (ex af).1 = 0
  · cases hc1 : (ex af).2 with
    | some c =>
      simp only [h1, if_true, ite_true, hc1]
      exact ⟨by simp, fun e he => by simp at he,
        fun _ => ⟨af, c, by simp, h1, hc1, by simp⟩⟩
    | none =>
      simp only [h1, if_true, ite_true, hc1]
      exact ⟨by simp, fun e _ => by simp, fun hok => by simp at hok⟩
  · by_cases h2 : (ex (pyJoin ((pySplit af).filter fun f =>
        !(pyStartsWith f "alimiter=")))).1 = 0
    · cases hc2 : (ex (pyJoin ((pySplit af).filter fun f =>
          !(pyStartsWith f "alimiter=")))).2 with
      | some c =>
        simp only [h1, if_false, ite_false, h2, if_true, ite_true, hc2]
        exact ⟨by simp, fun e he => by simp at he,
          fun _ => ⟨_, c, by simp, h2, hc2, by simp⟩⟩
      | none =>
        simp only [h1, if_false, ite_false, h2, if_true, ite_true, hc2]
        exact ⟨by simp, fun e _ => by simp, fun hok => by simp at hok⟩
    · cases hidx : firstIdxSat (fun p => pyStartsWith p "loudnorm")
          (pySplit (pyJoin ((pySplit af).filter fun f =>
            !(pyStartsWith f "alimiter=")))) with
      | none =>
        simp only [h1, if_false, ite_false, h2, hidx]
        exact ⟨by simp, fun e _ => by simp, fun hok => by simp at hok⟩
      | some i =>
        by_cases h3 : (ex (pyJoin ((pySplit (pyJoin ((pySplit af).filter fun f =>
            !(pyStartsWith f "alimiter=")))).drop i))).1 = 0
        · cases hc3 : (ex (pyJoin ((pySplit (pyJoin ((pySplit af).filter fun f =>
              !(pyStartsWith f "alimiter=")))).drop i))).2 with
          | some c =>
            simp only [h1, if_false, ite_false, h2, hidx, h3, if_true, ite_true, hc3]
            exact ⟨by simp, fun e he => by simp at he,
              fun _ => ⟨_, c, by simp, h3, hc3, by simp⟩⟩
          | none =>
            simp only [h1, if_false, ite_false, h2, hidx, h3, if_true, ite_true, hc3]
            exact ⟨by simp, fun e _ => by simp, fun hok => by simp at hok⟩
        · simp only [h1, if_false, ite_false, h2, hidx, h3]
          exact ⟨by simp, fun e _ => by simp, fun hok => by simp at hok⟩

/-- C2 witness: with an executor whose invocations all fail, rendering
over a destination holding previous content and a stale temporary file
ends in an error, leaves the destination content unchanged and no
temporary file. -/
theorem C2_render_atomic_witness :
    (_render_ffmpeg (fun _ => ((1 : Int), (none : Option String))) "x"
      ⟨some "old", some "stale"⟩).1.dst = some "old" ∧
    (_render_ffmpeg (fun _ => ((1 : Int), (none : Option String))) "x"
      ⟨some "old", some "stale"⟩).1.tmp = none := by
  have h := C2_render_atomic (fun _ => ((1 : Int), (none : Option String))) "x"
    ⟨some "old", some "stale"⟩
  exact ⟨h.2.1 "IndexError" rfl, h.1⟩

/-- C1: for every loudness render (an expression built by `_build_af`,
which always carries a limiter stage and a loudnorm stage) and every
executor that leaves an output in the temporary file on zero exit: the
variants attempted are, in order, (1) the full expression, (2) the
expression with the limiter stage removed, (3) the expression truncated to
begin at the loudnorm stage with any restore chain discarded; the first
variant exiting zero wins and later variants are not attempted, each
ladder position runs at most once, and if all three exit non-zero the
render ends in an error. -/
theorem C1_render_fallback_ladder (target_lufs true_peak lra : ℚ) (linear : Bool)
    (limit gain_db : ℚ) (restore : Bool) (strength : String)
    (ex : String → Int × Option String) (fs0 : RenderFS)
    (hex : ∀ v, (ex v).1 = 0 → (ex v).2.isSome) :
    ((ex (_build_af target_lufs true_peak lra linear limit gain_db restore strength)).1 = 0 →
      (_render_ffmpeg ex (_build_af target_lufs true_peak lra linear limit gain_db restore strength) fs0).2.2 =
        [_build_af target_lufs true_peak lra linear limit gain_db restore strength] ∧
      (_render_ffmpeg ex (_build_af target_lufs true_peak lra linear limit gain_db restore strength) fs0).2.1 =
        Except.ok ()) ∧
    ((ex (_build_af target_lufs true_peak lra linear limit gain_db restore strength)).1 ≠ 0 →
      (ex (afNoLimiter target_lufs true_peak lra linear gain_db restore strength)).1 = 0 →
      (_render_ffmpeg ex (_build_af target_lufs true_peak lra linear limit gain_db restore strength) fs0).2.2 =
        [_build_af target_lufs true_peak lra linear limit gain_db restore strength,
         afNoLimiter target_lufs true_peak lra linear gain_db restore strength] ∧
      (_render_ffmpeg ex (_build_af target_lufs true_peak lra linear limit gain_db restore strength) fs0).2.1 =
        Except.ok ()) ∧
    ((ex (_build_af target_lufs true_peak lra linear limit gain_db restore strength)).1 ≠ 0 →
      (ex (afNoLimiter target_lufs true_peak lra linear gain_db restore strength)).1 ≠ 0 →
      (_render_ffmpeg ex (_build_af target_lufs true_peak lra linear limit gain_db restore strength) fs0).2.2 =
        [_build_af target_lufs true_peak lra linear limit gain_db restore strength,
         afNoLimiter target_lufs true_peak lra linear gain_db restore strength,
         afLoudnormOnward target_lufs true_peak lra linear gain_db] ∧
      ((ex (afLoudnormOnward target_lufs true_peak lra linear gain_db)).1 = 0 →
        (_render_ffmpeg ex (_build_af target_lufs true_peak lra linear limit gain_db restore strength) fs0).2.1 =
          Except.ok ()) ∧
      ((ex (afLoudnormOnward target_lufs true_peak lra linear gain_db)).1 ≠ 0 →
        ∃ e, (_render_ffmpeg ex (_build_af target_lufs true_peak lra linear limit gain_db restore strength) fs0).2.1 =
          Except.error e)) := by
  have haf2 : pyJoin ((pySplit (_build_af target_lufs true_peak lra linear limit
      gain_db restore strength)).filter fun f => !(pyStartsWith f "alimiter=")) =
      afNoLimiter target_lufs true_peak lra linear gain_db restore strength := by
    rw [pySplit_build_af, afStages_filter_alimiter]
    rfl
  have hparts := pySplit_afNoLimiter target_lufs true_peak lra linear gain_db
    restore strength
  have hidx := firstIdxSat_afStagesNoLim target_lufs true_peak lra linear gain_db
    restore strength
  have haf3 : pyJoin ((afStagesNoLim target_lufs true_peak lra linear gain_db
      restore strength).drop (if restore then restoreStages strength else []).length) =
      afLoudnormOnward target_lufs true_peak lra linear gain_db := by
    rw [drop_afStagesNoLim]
    rfl
  refine ⟨?_, ?_, ?_⟩
  · intro h1
    obtain ⟨c, hc⟩ := Option.isSome_iff_exists.mp
      (hex (_build_af target_lufs true_peak lra linear limit gain_db restore strength) h1)
    unfold _render_ffmpeg
    simp only [h1, if_true, ite_true, hc]
    exact ⟨by simp, by simp⟩
  · intro h1 h2
    obtain ⟨c, hc⟩ := Option.isSome_iff_exists.mp
      (hex (afNoLimiter target_lufs true_peak lra linear gain_db restore strength) h2)
    unfold _render_ffmpeg
    rw [haf2]
    simp only [h1, h2, hc, if_true, if_false, ite_true, ite_false]
    exact ⟨by simp, by simp⟩
  · intro h1 h2
    unfold _render_ffmpeg
    simp only [haf2, hparts, hidx, haf3, h1, h2, if_false, ite_false]
    refine ⟨?_, ?_, ?_⟩
    · by_cases h3 : (ex (afLoudnormOnward target_lufs true_peak lra linear gain_db)).1 = 0
      · cases hc3 : (ex (afLoudnormOnward target_lufs true_peak lra linear gain_db)).2 <;>
          simp [h3, hc3]
      · simp [h3]
    · intro h3
      obtain ⟨c, hc⟩ := Option.isSome_iff_exists.mp
        (hex (afLoudnormOnward target_lufs true_peak lra linear gain_db) h3)
      simp [h3, hc]
    · intro h3
      simp only [h3, if_false, ite_false]
      exact ⟨"command failed", by simp⟩

/-- C1 witness: at concrete parameters with an all-failing executor, all
three ladder variants are attempted and the render ends in an error. -/
theorem C1_render_fallback_ladder_witness :
    (_render_ffmpeg (fun _ => ((1 : Int), (none : Option String)))
        (_build_af (-16) (-2) 11 true (17/20) 0 false "mild") ⟨none, none⟩).2.2 =
      [_build_af (-16) (-2) 11 true (17/20) 0 false "mild",
       afNoLimiter (-16) (-2) 11 true 0 false "mild",
       afLoudnormOnward (-16) (-2) 11 true 0] ∧
    (∃ e, (_render_ffmpeg (fun _ => ((1 : Int), (none : Option String)))
        (_build_af (-16) (-2) 11 true (17/20) 0 false "mild") ⟨none, none⟩).2.1 =
      Except.error e) := by
  have h := C1_render_fallback_ladder (-16) (-2) 11 true (17/20) 0 false "mild"
    (fun _ => ((1 : Int), (none : Option String))) ⟨none, none⟩
    (fun v hv => by simp at hv)
  have h3 := h.2.2 (by simp) (by simp)
  exact ⟨h3.1, h3.2.2 (by simp)⟩

theorem fmtInt_six : fmtInt 6 = "6" := by
  unfold fmtInt intChars
  rw [if_neg (by decide)]
  have h : natChars ((6 : ℤ).natAbs) = ['6'] := by
    rw [show ((6 : ℤ).natAbs) = 6 from rfl, natChars]
    simp [digitChar]
  rw [h]

/-- C3 counterexample: with the configured quality 6 (the `heavy` preset's
`ogg_quality`) and a failing primary encoder, the ffmpeg fallback command
carries the literal quality argument `"5"` after `-q:a` — not the
configured quality 6 — so the fallback does not encode at a quality
equivalent to every configured quality. -/
theorem C3_counterexample :
    ((_encode_to_ogg (fun _ => 1) "sox_ng" "ffmpeg" "final.wav" "out.ogg" 6).2.getLastD []).getD 12 "" = "-q:a" ∧
    ((_encode_to_ogg (fun _ => 1) "sox_ng" "ffmpeg" "final.wav" "out.ogg" 6).2.getLastD []).getD 13 "" = "5" ∧
    fmtInt 6 = "6" ∧
    ("5" : String) ≠ "6" := by
  refine ⟨rfl, rfl, fmtInt_six, ?_⟩
  decide

/-- C3 (amended): the primary encode invocation carries the configured
quality (`-C str(quality)`); on its non-zero exit the secondary engine is
retried at the fixed vorbis quality `5` regardless of the configured
quality (which coincides with the configured quality exactly when it is
5), and failure of both invocations is fatal for that file. -/
theorem C3_encode_fallback_quality (ex : List String → Int)
    (sox ffmpeg src dst : String) (quality : ℤ) :
    ((ex [sox, "-r", fmtInt (SR : ℤ), "-c", "1", "-C", fmtInt quality, src, dst] = 0 →
      _encode_to_ogg ex sox ffmpeg src dst quality =
        (Except.ok (), [[sox, "-r", fmtInt (SR : ℤ), "-c", "1", "-C", fmtInt quality, src, dst]]))) ∧
    (ex [sox, "-r", fmtInt (SR : ℤ), "-c", "1", "-C", fmtInt quality, src, dst] ≠ 0 →
      (_encode_to_ogg ex sox ffmpeg src dst quality).2 =
        [[sox, "-r", fmtInt (SR : ℤ), "-c", "1", "-C", fmtInt quality, src, dst],
         [ffmpeg, "-v", "error", "-y", "-i", src, "-ar", fmtInt (SR : ℤ),
          "-ac", "1", "-c:a", "libvorbis", "-q:a", "5", dst]] ∧
      (((_encode_to_ogg ex sox ffmpeg src dst quality).2.getLastD []).getD 12 "" = "-q:a" ∧
       ((_encode_to_ogg ex sox ffmpeg src dst quality).2.getLastD []).getD 13 "" = "5") ∧
      (ex [ffmpeg, "-v", "error", "-y", "-i", src, "-ar", fmtInt (SR : ℤ),
          "-ac", "1", "-c:a", "libvorbis", "-q:a", "5", dst] = 0 →
        (_encode_to_ogg ex sox ffmpeg src dst quality).1 = Except.ok ()) ∧
      (ex [ffmpeg, "-v", "error", "-y", "-i", src, "-ar", fmtInt (SR : ℤ),
          "-ac", "1", "-c:a", "libvorbis", "-q:a", "5", dst] ≠ 0 →
        ∃ e, (_encode_to_ogg ex sox ffmpeg src dst quality).1 = Except.error e)) := by
  constructor
  · intro h1
    unfold _encode_to_ogg
    simp [h1]
  · intro h1
    unfold _encode_to_ogg
    simp only [h1, if_false, ite_false]
    refine ⟨by simp, ⟨by simp, by simp⟩, ?_, ?_⟩
    · intro h2
      simp [h2]
    · intro h2
      simp only [h2, if_false, ite_false]
      exact ⟨"command failed", by simp⟩

/-- C3 amended-claim witness: with an all-failing executor at quality 6,
both commands are attempted, the fallback quality argument is `"5"`, and
the encode is fatal. -/
theorem C3_encode_fallback_quality_witness :
    ((_encode_to_ogg (fun _ => 1) "sox_ng" "ffmpeg" "final.wav" "out.ogg" 6).2.getLastD []).getD 13 "" = "5" ∧
    (∃ e, (_encode_to_ogg (fun _ => 1) "sox_ng" "ffmpeg" "final.wav" "out.ogg" 6).1 = Except.error e) := by
  have h := (C3_encode_fallback_quality (fun _ => 1) "sox_ng" "ffmpeg"
    "final.wav" "out.ogg" 6).2 (by decide)
  exact ⟨h.2.1.2, h.2.2.2 (by decide)⟩

/-- C6: for every preset the armor plan is built exactly as claimed:
effective wet level `clamp01(wet*wetGain)`, dry level `1 - wet`, comb tap
delay `1000/combHz` for positive comb frequency and `5.0` otherwise (so
`combHz = 220` gives `50/11 ≈ 4.545` ms, within `0.001`, and `combHz = 0`
gives exactly 5 ms); the wet-only effect list in order
highpass, lowpass, EQ band 1, EQ band 2, inner lowpass, echo with
send/return `0.75/0.75` and the slap and comb taps, then the lowpass
repeated; the mix at `(dry, wet)`; and the final gain normalizing the peak
to `-headroom` dB when leveling is enabled, else the fixed `-3` dB trim. -/
theorem C6_armor_plan (p : ArmorPreset) :
    (apply_armorfx p).wetLevel = _clamp01 (p.wet * p.wet_gain) ∧
    (apply_armorfx p).dryLevel = 1 - (apply_armorfx p).wetLevel ∧
    (p.comb_hz > 0 → (apply_armorfx p).combMs = 1000 / p.comb_hz) ∧
    (¬ p.comb_hz > 0 → (apply_armorfx p).combMs = 5) ∧
    (p.comb_hz = 220 → (apply_armorfx p).combMs = 50 / 11 ∧
      |(apply_armorfx p).combMs - 4545 / 1000| < 1 / 1000) ∧
    (p.comb_hz = 0 → (apply_armorfx p).combMs = 5) ∧
    (apply_armorfx p).wetEffects =
      [SoxEffect.highpass p.hipass,
       SoxEffect.lowpass p.lopass,
       SoxEffect.equalizer p.eq1_f (_normalize_width p.eq1_w) p.eq1_g,
       SoxEffect.equalizer p.eq2_f (_normalize_width p.eq2_w) p.eq2_g,
       SoxEffect.lowpass p.inner_lp,
       SoxEffect.echo (3/4) (3/4)
         [(p.slap_ms, p.slap_decay), ((apply_armorfx p).combMs, p.comb_decay)],
       SoxEffect.lowpass p.lopass] ∧
    (apply_armorfx p).mixLevels = ((apply_armorfx p).dryLevel, (apply_armorfx p).wetLevel) ∧
    (p.normalize = true → (apply_armorfx p).gain = GainStage.normalizeTo p.headroom_db) ∧
    (p.normalize = false → (apply_armorfx p).gain = GainStage.fixedTrim (-3)) := by
  refine ⟨rfl, rfl, ?_, ?_, ?_, ?_, rfl, rfl, ?_, ?_⟩
  · intro h
    simp [apply_armorfx, _comb_ms, h]
  · intro h
    simp [apply_armorfx, _comb_ms, h]
  · intro h
    have hc : (apply_armorfx p).combMs = 1000 / p.comb_hz := by
      simp [apply_armorfx, _comb_ms, h]
    constructor
    · rw [hc, h]
      norm_num
    · rw [hc, h]
      rw [show (1000 : ℚ) / 220 - 4545 / 1000 = 1 / 2200 by norm_num]
      rw [abs_of_pos (by norm_num : (0 : ℚ) < 1 / 2200)]
      norm_num
  · intro h
    simp [apply_armorfx, _comb_ms, h]
  · intro h
    simp [apply_armorfx, h]
  · intro h
    simp [apply_armorfx, h]

/-- C6 witness: at the default preset (`comb_hz = 220`, leveling on), the
comb delay is `50/11` ms (≈ 4.545), and the final gain normalizes to
`-1` dB of headroom. -/
theorem C6_armor_plan_witness :
    (apply_armorfx {}).combMs = 50 / 11 ∧
    |(apply_armorfx {}).combMs - 4545 / 1000| < 1 / 1000 ∧
    (apply_armorfx {}).gain = GainStage.normalizeTo 1 := by
  have h := C6_armor_plan {}
  have h220 := h.2.2.2.2.1 rfl
  exact ⟨h220.1, h220.2, h.2.2.2.2.2.2.2.2.1 rfl⟩

/-- Whether path `f` lies inside the directory tree rooted at `dir`
(claim-side notion: the path extends `dir` followed by a separator). -/
def insideDir (dir f : String) : Bool := pyStartsWith f (dir ++ "/")

/-- C4 counterexample: with output root `/r/out`, the file
`/r/out2/a.ogg` is a `.ogg` file, its name has neither the muffled `m_`
prefix nor the transient `.tmp_` prefix, and it does not lie inside the
output tree, yet discovery rejects it — the exclusion is a plain
string-prefix test on the resolved path string, which also matches sibling
paths extending the output root's name; so discovery does not select
exactly the set the claim describes. -/
theorem C4_counterexample :
    pyEndsWith "/r/out2/a.ogg" ".ogg" = true ∧
    pyStartsWith (pyLower (pathName "/r/out2/a.ogg")) "m_" = false ∧
    pyStartsWith (pathName "/r/out2/a.ogg") ".tmp_" = false ∧
    insideDir "/r/out" "/r/out2/a.ogg" = false ∧
    discover "/r/out" false ["/r/out2/a.ogg"] = [] := by
  refine ⟨by decide, by decide, by decide, by decide, by decide⟩

/-- C4 (amended): a file is discovered exactly when it is a `.ogg` file
whose lowered name does not start with `m_`, whose name does not start
with `.tmp_`, and — unless write-in-place — whose resolved path string
does not start with the resolved output root (a string-prefix test that
excludes the whole output tree and also any path extending the output
root's name, such as a sibling `out2` directory); discovered files are in
ascending lexicographic path order; on the claim's concrete instance
`{a.ogg, m_a.ogg, .tmp_a.ogg, out/a.ogg}` exactly `{a.ogg}` is selected. -/
theorem C4_discovery_selection (out_abs : String) (in_place : Bool)
    (files : List String) :
    (∀ f, f ∈ discover out_abs in_place files ↔
      f ∈ files ∧ discoverPred out_abs in_place f = true) ∧
    (discover out_abs in_place files).Pairwise (fun a b => pyLe a b = true) ∧
    discover "/r/out" false
      ["/r/a.ogg", "/r/m_a.ogg", "/r/.tmp_a.ogg", "/r/out/a.ogg"] =
      ["/r/a.ogg"] := by
  refine ⟨?_, ?_, by decide⟩
  · intro f
    unfold discover
    rw [mem_pySorted]
    simp [List.mem_filter]
  · exact pairwise_pySorted pyLe pyLe_trans pyLe_total _

/-- C4 amended-claim witness: a concrete discovery containing every
exclusion kind selects exactly the plain file. -/
theorem C4_discovery_selection_witness :
    ("/r/a.ogg" ∈ discover "/r/out" false ["/r/out/b.ogg", "/r/a.ogg"] ↔
      ("/r/a.ogg" ∈ ["/r/out/b.ogg", "/r/a.ogg"] ∧
        discoverPred "/r/out" false "/r/a.ogg" = true)) ∧
    discover "/r/out" false
      ["/r/a.ogg", "/r/m_a.ogg", "/r/.tmp_a.ogg", "/r/out/a.ogg"] =
      ["/r/a.ogg"] := by
  have h := C4_discovery_selection "/r/out" false ["/r/out/b.ogg", "/r/a.ogg"]
  exact ⟨h.1 "/r/a.ogg", (C4_discovery_selection "/r/out" false []).2.2⟩

/-- C8: the muffled-prefix exclusion is case-insensitive — any file whose
lowercased name starts with `m_` is rejected, in particular `M_a.ogg` —
while the transient-marker test matches `.tmp_` case-sensitively, so
`.TMP_a.ogg` passes that test and is discovered. -/
theorem C8_prefix_case_sensitivity :
    (∀ (out_abs : String) (in_place : Bool) (f : String),
      pyStartsWith (pyLower (pathName f)) "m_" = true →
      discoverPred out_abs in_place f = false) ∧
    pyStartsWith (pyLower (pathName "/r/M_a.ogg")) "m_" = true ∧
    discoverPred "/r/out" false "/r/M_a.ogg" = false ∧
    pyStartsWith (pathName "/r/.TMP_a.ogg") ".tmp_" = false ∧
    discoverPred "/r/out" false "/r/.TMP_a.ogg" = true ∧
    discover "/r/out" false ["/r/M_a.ogg", "/r/.TMP_a.ogg"] =
      ["/r/.TMP_a.ogg"] := by
  refine ⟨?_, by decide, by decide, by decide, by decide, by decide⟩
  intro o ip f h
  unfold discoverPred
  rw [h]
  simp

/-- C8 witness: the case-insensitive exclusion applied to a fresh
concrete name. -/
theorem C8_prefix_case_sensitivity_witness :
    discoverPred "/r/out" false "/r/M_b.ogg" = false :=
  C8_prefix_case_sensitivity.1 "/r/out" false "/r/M_b.ogg" (by decide)

/-- C7: with both engine binaries resolved, the batch exit status is 0
exactly when no per-file error occurred (in particular 0 when no input
files were found); a missing engine gives status 1; a per-file failure
never aborts the batch — every failing file's error string is collected —
and `process_file` records each failure as the file's relative path
followed by the cause. -/
theorem C7_batch_exit_status (avail : String → Bool) (soxArg ffmpegArg : String)
    (files : List String) (proc : String → Option String) :
    ((_need avail soxArg (some "sox")).isSome → (_need avail ffmpegArg none).isSome →
      ((cmd_apply_run avail soxArg ffmpegArg files proc).1 = 0 ↔
        ∀ f ∈ files, proc f = none)) ∧
    ((_need avail soxArg (some "sox")) = none ∨ (_need avail ffmpegArg none) = none →
      (cmd_apply_run avail soxArg ffmpegArg files proc).1 = 1) ∧
    ((_need avail soxArg (some "sox")).isSome → (_need avail ffmpegArg none).isSome →
      ∀ f ∈ files, ∀ e, proc f = some e →
        e ∈ (cmd_apply_run avail soxArg ffmpegArg files proc).2) ∧
    (∀ (cfg : Config) (rel : String) (helmetExists : Bool)
        (effs : List Effect) (e : String),
      cfg.skip_existing = false → cfg.dry_run = false →
      (process_file cfg rel helmetExists (effs, Except.error e)).1 =
        some (rel ++ ": " ++ e)) := by
  refine ⟨?_, ?_, ?_, ?_⟩
  · intro h1 h2
    obtain ⟨s1, hs1⟩ := Option.isSome_iff_exists.mp h1
    obtain ⟨s2, hs2⟩ := Option.isSome_iff_exists.mp h2
    unfold cmd_apply_run
    simp only [hs1, hs2]
    by_cases hf : files.isEmpty
    · rw [if_pos hf]
      have : files = [] := List.isEmpty_iff.mp hf
      subst this
      simp
    · rw [if_neg hf]
      by_cases he : (files.filterMap proc).isEmpty
      · rw [if_pos he]
        have hnil := List.filterMap_eq_nil_iff.mp (List.isEmpty_iff.mp he)
        exact ⟨fun _ => hnil, fun _ => rfl⟩
      · rw [if_neg he]
        constructor
        · intro h01
          simp at h01
        · intro hall
          exfalso
          exact he (List.isEmpty_iff.mpr (List.filterMap_eq_nil_iff.mpr hall))
  · intro h
    unfold cmd_apply_run
    rcases h with h | h
    · rw [h]
    · rw [h]
      cases hx : _need avail soxArg (some "sox") <;> rfl
  · intro h1 h2 f hf e he
    obtain ⟨s1, hs1⟩ := Option.isSome_iff_exists.mp h1
    obtain ⟨s2, hs2⟩ := Option.isSome_iff_exists.mp h2
    unfold cmd_apply_run
    simp only [hs1, hs2]
    have hne : files.isEmpty = false := by
      cases files with
      | nil => simp at hf
      | cons a t => rfl
    rw [if_neg (by simp [hne])]
    exact List.mem_filterMap.mpr ⟨f, hf, he⟩
  · intro cfg rel helmetExists effs e hskip hdry
    unfold process_file
    rw [if_neg (by simp [hskip]), if_neg (by simp [hdry])]

/-- C7 witness: a two-file batch where the second file fails exits with a
non-zero status while the failure is recorded, and a failing pipeline
produces the `rel: cause` error string. -/
theorem C7_batch_exit_status_witness :
    ¬ ((cmd_apply_run (fun _ => true) "sox_ng" "ffmpeg" ["a", "b"]
        (fun f => if f = "b" then some "b: fail" else none)).1 = 0) ∧
    "b: fail" ∈ (cmd_apply_run (fun _ => true) "sox_ng" "ffmpeg" ["a", "b"]
        (fun f => if f = "b" then some "b: fail" else none)).2 ∧
    (process_file ⟨false, false, false, false⟩ "voice/a.ogg" false
        ([], Except.error "boom")).1 = some ("voice/a.ogg" ++ ": " ++ "boom") := by
  have h := C7_batch_exit_status (fun _ => true) "sox_ng" "ffmpeg" ["a", "b"]
    (fun f => if f = "b" then some "b: fail" else none)
  refine ⟨?_, ?_, ?_⟩
  · intro h0
    have hb := (h.1 (by decide) (by decide)).mp h0 "b" (by decide)
    simp at hb
  · exact h.2.2.1 (by decide) (by decide) "b" (by decide) "b: fail" (by decide)
  · exact h.2.2.2 ⟨false, false, false, false⟩ "voice/a.ogg" false [] "boom" rfl rfl

/-- C10: with dry-run set, `process_file` returns success for every file
and performs no side effect — no external process, no directory or file
creation — whatever the pipeline body would have done; consequently a
dry-run batch whose two engine binaries resolve exits with status 0
regardless of the files. -/
theorem C10_dry_run_inert (cfg : Config) (hdry : cfg.dry_run = true) :
    (∀ (rel : String) (helmetExists : Bool)
        (run : List Effect × Except String Unit),
      process_file cfg rel helmetExists run = (none, [])) ∧
    (∀ (avail : String → Bool) (soxArg ffmpegArg : String)
        (files : List String) (rel : String → String)
        (helmetExists : String → Bool)
        (run : String → List Effect × Except String Unit),
      (_need avail soxArg (some "sox")).isSome →
      (_need avail ffmpegArg none).isSome →
      (cmd_apply_run avail soxArg ffmpegArg files
        (fun f => (process_file cfg (rel f) (helmetExists f) (run f)).1)).1 = 0) := by
  have hp : ∀ (rel : String) (helmetExists : Bool)
      (run : List Effect × Except String Unit),
      process_file cfg rel helmetExists run = (none, []) := by
    intro rel he run
    unfold process_file
    by_cases hskip : cfg.skip_existing && he
    · rw [if_pos hskip]
    · rw [if_neg hskip, if_pos hdry]
  refine ⟨hp, ?_⟩
  intro avail sx ff files rel he run h1 h2
  obtain ⟨s1, hs1⟩ := Option.isSome_iff_exists.mp h1
  obtain ⟨s2, hs2⟩ := Option.isSome_iff_exists.mp h2
  unfold cmd_apply_run
  simp only [hs1, hs2]
  by_cases hf : files.isEmpty
  · rw [if_pos hf]
  · rw [if_neg hf]
    have hmap : files.filterMap
        (fun f => (process_file cfg (rel f) (he f) (run f)).1) = [] := by
      apply List.filterMap_eq_nil_iff.mpr
      intro a _
      rw [hp (rel a) (he a) (run a)]
    rw [hmap]
    rfl

/-- C10 witness: a dry-run configuration succeeds on a file whose pipeline
body would fail and create directories, with no effects; a one-file
dry-run batch exits 0. -/
theorem C10_dry_run_inert_witness :
    process_file ⟨true, false, false, false⟩ "a.ogg" false
      ([Effect.mkdir "out"], Except.error "boom") = (none, []) ∧
    (cmd_apply_run (fun _ => true) "sox_ng" "ffmpeg" ["f1.ogg"]
      (fun f => (process_file ⟨true, false, false, false⟩ f false
        ([], Except.ok ())).1)).1 = 0 := by
  have h := C10_dry_run_inert ⟨true, false, false, false⟩ rfl
  exact ⟨h.1 "a.ogg" false _,
    h.2 (fun _ => true) "sox_ng" "ffmpeg" ["f1.ogg"] (fun f => f)
      (fun _ => false) (fun _ => ([], Except.ok ())) (by decide) (by decide)⟩
